import Mathlib

/-!
# fsutil: a verification development

A shallow embedding of the Go package `fsutil` (`dir.go`, `file.go`).

The package is a thin layer over the operating system.  Every function of the
package is embedded once, over an explicit interface `OS` of the platform calls
it makes (`os.Stat`, `os.OpenFile`, `(*File).ReadDir`, ...), with the state of
the platform passed explicitly.  Statements about how platform outcomes are
mapped to results are proved for every implementation of the interface;
statements about the effect on the file system are proved for `posixOS`, an
in-memory model of a POSIX file system seen by a process that is privileged
(`memOS`) or not.
-/

set_option linter.dupNamespace false

namespace Fsutil

/-! ## Values of the Go standard library used by the package -/

deriving instance DecidableEq for Except

/-- Contents of a file: a sequence of bytes. -/
abbrev Bytes := List UInt8

/-- Go `fs.FileMode`, a `uint32`. -/
abbrev FileMode := Nat

def ModeDir : FileMode := 2 ^ 31
def ModeSymlink : FileMode := 2 ^ 27
def ModeDevice : FileMode := 2 ^ 26
def ModeNamedPipe : FileMode := 2 ^ 25
def ModeSocket : FileMode := 2 ^ 24
def ModeCharDevice : FileMode := 2 ^ 21
def ModeSetuid : FileMode := 2 ^ 23
def ModeSetgid : FileMode := 2 ^ 22
def ModeSticky : FileMode := 2 ^ 20
def ModeIrregular : FileMode := 2 ^ 19

/-- Go `fs.ModeType`: the mask of the type bits. -/
def ModeType : FileMode :=
  ModeDir ||| ModeSymlink ||| ModeNamedPipe ||| ModeSocket ||| ModeDevice |||
    ModeCharDevice ||| ModeIrregular

/-- Go `fs.ModePerm`: the Unix permission bits. -/
def ModePerm : FileMode := 0o777

/-- Go `FileMode.IsDir`: `m&ModeDir != 0`. -/
def FileMode.IsDir (m : FileMode) : Bool := m &&& ModeDir != 0

/-- Go `FileMode.IsRegular`: `m&ModeType == 0`. -/
def FileMode.IsRegular (m : FileMode) : Bool := m &&& ModeType == 0

/-- Go `FileMode.Perm`: `m & ModePerm`. -/
def FileMode.Perm (m : FileMode) : FileMode := m &&& ModePerm

/-- Go `fs.FileInfo`, as far as the package reads it. -/
structure FileInfo where
  Size : Int
  Mode : FileMode
  deriving DecidableEq, Repr

/-- Go `FileInfo.IsDir`, an abbreviation of `Mode().IsDir()`. -/
def FileInfo.IsDir (fi : FileInfo) : Bool := FileMode.IsDir fi.Mode

/-- Go `fs.DirEntry`: `Type_` is the method `Type()`, it holds the type bits of the entry. -/
structure DirEntry where
  Name : String
  Type_ : FileMode
  deriving DecidableEq, Repr

/-- Go `DirEntry.IsDir`. -/
def DirEntry.IsDir (v : DirEntry) : Bool := FileMode.IsDir v.Type_

/-- An error made by the platform (a `*PathError`, a `syscall.Errno`, ...):
the text of `Error()` and the answer of `os.IsNotExist`. -/
structure SysErr where
  msg : String
  notExist : Bool
  deriving DecidableEq, Repr

/-- The error of a directory read: `io.EOF` or an error of the platform. -/
inductive DirErr where
  | eof
  | sys (e : SysErr)
  deriving DecidableEq, Repr

/-- Go `error` values the package can return: `io.EOF`, the four sentinels
declared with `errors.New` in `dir.go` and `file.go`, and platform errors. -/
inductive Error where
  | EOF
  | ErrNotDir
  | ErrHomeDir
  | ErrNotFile
  | ErrFileTooBig
  | sys (e : SysErr)
  deriving DecidableEq, Repr

/-- A directory-read error as a Go `error` value. -/
def DirErr.toError : DirErr → Error
  | .eof => Error.EOF
  | .sys e => Error.sys e

/-- The method `Error()` of an `error` value. -/
def Error.Error : Error → String
  | .EOF => "EOF"
  | .ErrNotDir => "not a directory"
  | .ErrHomeDir => "cannot resolve home directory"
  | .ErrNotFile => "not a file"
  | .ErrFileTooBig => "file is too large"
  | .sys e => e.msg

/-- Go `len(s)` of a string: the number of bytes of its UTF-8 encoding. -/
def len (s : String) : Nat := (s.data.map Char.utf8Size).sum

/-- Go `strings.HasPrefix`. -/
def hasPrefix (s p : String) : Bool := p.data.isPrefixOf s.data

/-- Go `strings.HasSuffix`. -/
def hasSuffix (s p : String) : Bool := p.data.isSuffixOf s.data

/-- Scan of `filepath.Ext` from the last byte towards the first: `r` is what
is still to scan (reversed), `acc` what was scanned. -/
def extScan : List Char → List Char → List Char
  | [], _ => []
  | c :: r, acc =>
    if c = '/' then []
    else if c = '.' then '.' :: acc
    else extScan r (c :: acc)

/-- Go `filepath.Ext`: the suffix beginning at the final dot in the final
element of the path, empty if there is no dot. -/
def filepathExt (path : String) : String := ⟨extScan path.data.reverse []⟩

/-- Go flags of `os.OpenFile` (values of `syscall` on Linux). -/
def O_RDONLY : Nat := 0x0
def O_WRONLY : Nat := 0x1
def O_RDWR : Nat := 0x2
def O_CREATE : Nat := 0x40
def O_EXCL : Nat := 0x80
def O_TRUNC : Nat := 0x200
def O_APPEND : Nat := 0x400

/-! ## The platform interface -/

/-- The platform calls made by the package, over a platform state `σ` and a
type `η` of open file handles.  A call that can change the file system returns
the state after it. -/
structure OS (σ : Type) (η : Type) where
  /-- Go `os.Stat`. -/
  Stat : String → σ → Except SysErr FileInfo
  /-- Go `os.OpenFile(name, flag, perm)`. -/
  OpenFile : String → Nat → FileMode → σ → Except SysErr η × σ
  /-- Go `(*File).Close`; the package ignores its error. -/
  Close : η → σ → σ
  /-- Go `(*File).Readdirnames(n)`. -/
  Readdirnames : η → Int → σ → List String × Option DirErr
  /-- Go `(*File).ReadDir(n)`. -/
  ReadDir : η → Int → σ → List DirEntry × Option DirErr
  /-- Go `(*File).Write`. -/
  Write : η → Bytes → σ → Option SysErr × σ
  /-- Go `os.Remove`. -/
  Remove : String → σ → Option SysErr × σ
  /-- Go `os.Chmod`. -/
  Chmod : String → FileMode → σ → Option SysErr × σ
  /-- Go `os.ReadFile`. -/
  ReadFile : String → σ → Except SysErr Bytes
  /-- Go `os.UserHomeDir`. -/
  UserHomeDir : σ → Except SysErr String
  /-- Go `os.Getwd`. -/
  Getwd : σ → Except SysErr String

variable {σ η : Type}

/-- Go `os.Open(name)`: `OpenFile(name, O_RDONLY, 0)`. -/
def OS.Open (os : OS σ η) (name : String) (s : σ) : Except SysErr η × σ :=
  os.OpenFile name O_RDONLY 0 s

/-- Go `os.Create(name)`: `OpenFile(name, O_RDWR|O_CREATE|O_TRUNC, 0666)`. -/
def OS.Create (os : OS σ η) (name : String) (s : σ) : Except SysErr η × σ :=
  os.OpenFile name (O_RDWR ||| O_CREATE ||| O_TRUNC) 0o666 s

/-! ## dir.go -/

/-- Go `type PathType uint32`. -/
abbrev PathType := Nat

def NotExist : PathType := 0
def Directory : PathType := 1
def File : PathType := 2
def IrregularPath : PathType := 54288
def BadPath : PathType := 0o655

/-- `TestPath` of `dir.go`. -/
def TestPath (os : OS σ η) (path : String) (s : σ) : PathType :=
  match os.Stat path s with
  | .error err => if err.notExist then NotExist else BadPath
  | .ok stat =>
    if stat.IsDir then Directory
    else if FileMode.IsRegular stat.Mode then File
    else IrregularPath

/-- `IsPath` of `dir.go`. -/
def IsPath (os : OS σ η) (path : String) (t : List PathType) (s : σ) : Bool :=
  if t.length = 0 then true
  else t.any (fun v => v == TestPath os path s)

/-- The test `err != nil && strings.HasSuffix(err.Error(), "not a directory")`
made by `IsEmptyDir`, `Dir` and `Subdir`. -/
def notADirectory (err : Option DirErr) : Bool :=
  match err with
  | some e => hasSuffix e.toError.Error "not a directory"
  | none => false

/-- `IsEmptyDir` of `dir.go`. -/
def IsEmptyDir (os : OS σ η) (path : String) (s : σ) : (Bool × Option Error) × σ :=
  match os.Open path s with
  | (.error err, s1) => ((false, some (.sys err)), s1)
  | (.ok fd, s1) =>
    let r := os.Readdirnames fd 1 s1
    let err := r.2
    let s2 := os.Close fd s1
    if err = some DirErr.eof then ((true, none), s2)
    else if notADirectory err then ((false, some Error.ErrNotDir), s2)
    else ((false, err.map DirErr.toError), s2)

/-- `RemoveEmptyDir` of `dir.go`. -/
def RemoveEmptyDir (os : OS σ η) (path : String) (s : σ) : Option Error × σ :=
  match IsEmptyDir os path s with
  | ((_, some err), s1) => (some err, s1)
  | ((ok, none), s1) =>
    if ok then
      let r := os.Remove path s1
      (r.1.map Error.sys, r.2)
    else (none, s1)

/-- The `fullExt` of `Dir`: empty for the filters `*` and the empty one,
otherwise the filter after a dot. -/
def fullExt (ext : String) : String :=
  if ext != "*" && ext != "" then "." ++ ext else ""

/-- One turn of the loop of `Dir` over `dirItems`. -/
def dirStep (fullExt : String) (names : List String) (v : DirEntry) : List String :=
  if !FileMode.IsRegular v.Type_ then names
  else if fullExt == "" then names ++ [v.Name]
  else if filepathExt v.Name == fullExt then names ++ [v.Name]
  else names

/-- `Dir` of `dir.go`.  A Go slice is `none` when it is `nil` and `some l`
when it is a non-nil slice with the elements `l`. -/
def Dir (os : OS σ η) (path ext : String) (maxfile : Int) (s : σ) :
    (Option (List String) × Option Error) × σ :=
  match os.Open path s with
  | (.error err, s1) => ((none, some (.sys err)), s1)
  | (.ok fd, s1) =>
    let r := os.ReadDir fd maxfile s1
    let dirItems := r.1
    let err := r.2
    let s2 := os.Close fd s1
    if err = some DirErr.eof then ((none, none), s2)
    else if notADirectory err then ((none, some Error.ErrNotDir), s2)
    else
      let names := dirItems.foldl (dirStep (fullExt ext)) []
      ((some names, none), s2)

/-- One turn of the loop of `Subdir` over `dirItems`. -/
def subdirStep (names : List String) (v : DirEntry) : List String :=
  if !v.IsDir then names else names ++ [v.Name]

/-- `Subdir` of `dir.go`. -/
def Subdir (os : OS σ η) (path : String) (maxfile : Int) (s : σ) :
    (Option (List String) × Option Error) × σ :=
  match os.Open path s with
  | (.error err, s1) => ((none, some (.sys err)), s1)
  | (.ok fd, s1) =>
    let r := os.ReadDir fd maxfile s1
    let dirItems := r.1
    let err := r.2
    let s2 := os.Close fd s1
    if err = some DirErr.eof then ((none, none), s2)
    else if notADirectory err then ((none, some Error.ErrNotDir), s2)
    else
      let names := dirItems.foldl subdirStep []
      ((some names, none), s2)

/-- `HomeDir` of `dir.go`. -/
def HomeDir (os : OS σ η) (s : σ) : String :=
  match os.UserHomeDir s with
  | .error _ => ""
  | .ok homePath => homePath

/-! ### path/filepath of the Go standard library (Unix), on path elements -/

/-- The elements of a path between its separators `/`. -/
def splitSlash : List Char → List (List Char)
  | [] => [[]]
  | c :: cs =>
    if c = '/' then [] :: splitSlash cs
    else
      match splitSlash cs with
      | [] => [[c]]
      | e :: es => (c :: e) :: es

/-- Elements joined with the separator `/`. -/
def joinSlash : List (List Char) → List Char
  | [] => []
  | [e] => e
  | e :: es => e ++ '/' :: joinSlash es

/-- One element read by `filepath.Clean`; `stack` holds the elements kept so
far, the last one first.  Empty elements and `.` are dropped, `..` removes the
element before it, is dropped at the root and is kept at the start of a
relative path. -/
def cleanStep (rooted : Bool) (stack : List (List Char)) (e : List Char) :
    List (List Char) :=
  if e = [] ∨ e = ['.'] then stack
  else if e = ['.', '.'] then
    match stack with
    | [] => if rooted then [] else [e]
    | t :: rest => if t = ['.', '.'] then e :: stack else rest
  else e :: stack

/-- Go `filepath.Clean`: the shortest path name equivalent to `path` by purely
lexical processing. -/
def filepathClean (path : String) : String :=
  let rooted := hasPrefix path "/"
  let out := ((splitSlash path.data).foldl (cleanStep rooted) []).reverse
  if rooted then ⟨'/' :: joinSlash out⟩
  else if out = [] then "."
  else ⟨joinSlash out⟩

/-- Go `filepath.IsAbs` on Unix. -/
def filepathIsAbs (path : String) : Bool := hasPrefix path "/"

/-- Go `filepath.Join` of two elements: empty elements are ignored and the
result is cleaned. -/
def filepathJoin (a b : String) : String :=
  if a != "" then filepathClean (a ++ "/" ++ b)
  else if b != "" then filepathClean b
  else ""

/-- Go `filepath.Abs` on Unix: a path that is not absolute is joined with the
current working directory. -/
def filepathAbs (os : OS σ η) (path : String) (s : σ) : String × Option Error :=
  if filepathIsAbs path then (filepathClean path, none)
  else
    match os.Getwd s with
    | .error err => ("", some (.sys err))
    | .ok wd => (filepathJoin wd path, none)

/-- Go `filepath.Dir` on Unix: all but the last element of the path,
cleaned. -/
def filepathDir (path : String) : String :=
  filepathClean ⟨(path.data.reverse.dropWhile (fun c => c != '/')).reverse⟩

/-- `Abs` of `dir.go`; `path[2:]` drops the two bytes of the prefix. -/
def Abs (os : OS σ η) (path : String) (s : σ) : String × Option Error :=
  let result : Except Error String :=
    if hasPrefix path "~/" then
      let homedir := HomeDir os s
      if homedir == "" then .error Error.ErrHomeDir
      else if len path == 2 then .ok homedir
      else .ok (homedir ++ "/" ++ ⟨path.data.drop 2⟩)
    else .ok path
  match result with
  | .error e => ("", some e)
  | .ok result => filepathAbs os result s

/-! ## file.go -/

/-- `RemoveFile` of `file.go`. -/
def RemoveFile (os : OS σ η) (path : String) (deleteEmptyDir : Bool) (s : σ) :
    Option Error × σ :=
  if TestPath os path s != File then (some Error.ErrNotFile, s)
  else
    match os.Remove path s with
    | (some err, s1) => (some (.sys err), s1)
    | (none, s1) =>
      if !deleteEmptyDir then (none, s1)
      else
        let parentDir := filepathDir path
        match IsEmptyDir os parentDir s1 with
        | ((_, some err), s2) => (some err, s2)
        | ((ok, none), s2) =>
          if ok then
            let r := os.Remove parentDir s2
            (r.1.map Error.sys, r.2)
          else (none, s2)

/-- `ReadFile` of `file.go`; `maxBytes` is an `int64`. -/
def ReadFile (os : OS σ η) (path : String) (maxBytes : Int) (s : σ) :
    Except Error Bytes :=
  if maxBytes > 0 then
    match os.Stat path s with
    | .error err => .error (.sys err)
    | .ok stat =>
      if stat.IsDir then .error Error.ErrNotFile
      else if maxBytes > 0 && stat.Size > maxBytes then .error Error.ErrFileTooBig
      else (os.ReadFile path s).mapError Error.sys
  else (os.ReadFile path s).mapError Error.sys

/-- `WriteFile` of `file.go`. -/
def WriteFile (os : OS σ η) (path : String) (data : Bytes) (mode : FileMode) (s : σ) :
    Option Error × σ :=
  match os.Create path s with
  | (.error err, s1) => (some (.sys err), s1)
  | (.ok fd, s1) =>
    match os.Write fd data s1 with
    | (some err, s2) => (some (.sys err), os.Close fd s2)
    | (none, s2) =>
      match os.Chmod path mode s2 with
      | (some err, s3) => (some (.sys err), os.Close fd s3)
      | (none, s3) => (none, os.Close fd s3)

/-- `AppendFile` of `file.go`. -/
def AppendFile (os : OS σ η) (path : String) (data : Bytes) (mode : FileMode) (s : σ) :
    Option Error × σ :=
  match os.OpenFile path (O_APPEND ||| O_CREATE ||| O_WRONLY) mode s with
  | (.error err, s1) => (some (.sys err), s1)
  | (.ok fd, s1) =>
    match os.Write fd data s1 with
    | (some err, s2) => (some (.sys err), os.Close fd s2)
    | (none, s2) => (none, os.Close fd s2)

/-! ## An in-memory model of the platform

A POSIX file system without links: a table from absolute paths (lists of
elements, the root being the empty list) to nodes.  The process has a working
directory, a umask and a home directory, and owns every node; it is either
privileged (`root`), and then passes every permission check, or not, and then
needs the owner bits of the mode.  `memOS` is the platform of a privileged
process.  Calls fail only for the reasons modelled here.
-/

/-- An absolute path: its elements from the root. -/
abbrev Key := List (List Char)

/-- A node of the file system. -/
inductive Node where
  /-- A regular file: permission, setuid, setgid and sticky bits, and content. -/
  | file (perm : Nat) (content : Bytes)
  /-- A directory: permission, setuid, setgid and sticky bits. -/
  | dir (perm : Nat)
  /-- Anything else (device, socket, pipe): the mode with its type bits. -/
  | other (mode : FileMode)
  deriving DecidableEq, Repr

/-- The state of the modelled platform. -/
structure MemFS where
  nodes : List (Key × Node)
  cwd : Key
  umask : Nat
  home : String
  deriving DecidableEq, Repr

/-- The error numbers the model produces. -/
inductive Errno where
  | ENOENT | ENOTDIR | EISDIR | EEXIST | ENOTEMPTY | ENXIO_ | EBADF | EBUSY | EACCES
  | EINVAL
  deriving DecidableEq, Repr

/-- The text of an error number (`syscall.Errno.Error`). -/
def Errno.msg : Errno → String
  | .ENOENT => "no such file or directory"
  | .ENOTDIR => "not a directory"
  | .EISDIR => "is a directory"
  | .EEXIST => "file exists"
  | .ENOTEMPTY => "directory not empty"
  | .ENXIO_ => "no such device or address"
  | .EBADF => "bad file descriptor"
  | .EBUSY => "device or resource busy"
  | .EACCES => "permission denied"
  | .EINVAL => "invalid argument"

/-- Go `*fs.PathError`: its text is `Op + " " + Path + ": " + Err.Error()`, and
`os.IsNotExist` holds for `ENOENT`. -/
def pathError (op path : String) (e : Errno) : SysErr :=
  ⟨op ++ " " ++ path ++ ": " ++ e.msg, e == Errno.ENOENT⟩

/-- The node at a key; the root is always a directory. -/
def MemFS.get (fs : MemFS) (k : Key) : Option Node :=
  if k = [] then some (Node.dir 0o755) else fs.nodes.lookup k

/-- The table with the node at `k` replaced in place, or added at the end. -/
def setNode (k : Key) (v : Node) : List (Key × Node) → List (Key × Node)
  | [] => [(k, v)]
  | (k1, v1) :: t => if k1 = k then (k, v) :: t else (k1, v1) :: setNode k v t

/-- The state with node `v` at key `k`. -/
def MemFS.set (fs : MemFS) (k : Key) (v : Node) : MemFS :=
  ⟨setNode k v fs.nodes, fs.cwd, fs.umask, fs.home⟩

/-- The state without a node at key `k`. -/
def MemFS.del (fs : MemFS) (k : Key) : MemFS :=
  ⟨fs.nodes.filter (fun kv => kv.1 != k), fs.cwd, fs.umask, fs.home⟩

/-- The entries of the directory at `k`, in the order of the table. -/
def MemFS.children (fs : MemFS) (k : Key) : List (Key × Node) :=
  fs.nodes.filter (fun kv => kv.1 != [] && kv.1.dropLast == k)

/-- Path resolution from the directory `cur`: every element is looked up in a
directory that exists and that the process may search (owner execute bit,
unless privileged); the last key reached need not exist. -/
def MemFS.walkAs (fs : MemFS) (root : Bool) : Key → List (List Char) → Except Errno Key
  | cur, [] => .ok cur
  | cur, e :: rest =>
    match fs.get cur with
    | some (Node.dir p) =>
      if e = [] then fs.walkAs root cur rest
      else if !root && p &&& 0o100 == 0 then .error Errno.EACCES
      else if e = ['.'] then fs.walkAs root cur rest
      else if e = ['.', '.'] then fs.walkAs root cur.dropLast rest
      else fs.walkAs root (cur ++ [e]) rest
    | some _ => .error Errno.ENOTDIR
    | none => .error Errno.ENOENT

/-- The key a path name resolves to; a relative path starts at the working
directory, the empty path does not resolve. -/
def MemFS.resolveAs (fs : MemFS) (root : Bool) (path : String) : Except Errno Key :=
  if path = "" then .error Errno.ENOENT
  else fs.walkAs root (if hasPrefix path "/" then [] else fs.cwd) (splitSlash path.data)

/-- The key a path name resolves to for a privileged process. -/
def MemFS.resolve (fs : MemFS) (path : String) : Except Errno Key :=
  fs.resolveAs true path

/-- An open file: the key it was opened at, the name and the flags it was
opened with. Its offset is zero. -/
structure Fd where
  key : Key
  name : String
  flag : Nat
  deriving DecidableEq, Repr

/-- The type bits of a node. -/
def Node.typeBits : Node → FileMode
  | .file _ _ => 0
  | .dir _ => ModeDir
  | .other m => m &&& ModeType

/-- The mode bits of a node that decide access. -/
def Node.bits : Node → Nat
  | .file p _ => p
  | .dir p => p
  | .other m => m

/-- The bits of `x` that are not in `mask` (Go `x &^ mask`). -/
def andNot (x mask : Nat) : Nat := x ^^^ (x &&& mask)

/-- The bits of a Go mode that `os.Chmod` and `os.OpenFile` hand to the
platform: the permission bits, `ModeSetuid`, `ModeSetgid` and `ModeSticky`. -/
def chmodBits (m : FileMode) : Nat :=
  m &&& (ModePerm ||| ModeSetuid ||| ModeSetgid ||| ModeSticky)

/-- Whether the process may open a node of mode `md` with the access mode of
`flag`: reading needs the owner read bit and writing the owner write bit,
unless the process is privileged. -/
def mayOpen (root : Bool) (md flag : Nat) : Bool :=
  root ||
    ((flag &&& (O_WRONLY ||| O_RDWR) == O_WRONLY || md &&& 0o400 != 0) &&
     (flag &&& (O_WRONLY ||| O_RDWR) == O_RDONLY || md &&& 0o200 != 0))

/-- Whether the process may add or remove an entry of the directory at `k`:
it needs the owner write and execute bits, unless it is privileged. -/
def MemFS.mayChange (fs : MemFS) (root : Bool) (k : Key) : Bool :=
  root ||
    match fs.get k with
    | some (Node.dir p) => p &&& 0o300 == 0o300
    | _ => false

/-- `os.Stat` of the model. -/
def memStat (root : Bool) (path : String) (fs : MemFS) : Except SysErr FileInfo :=
  match fs.resolveAs root path with
  | .error e => .error (pathError "stat" path e)
  | .ok k =>
    match fs.get k with
    | none => .error (pathError "stat" path Errno.ENOENT)
    | some (Node.file perm content) => .ok ⟨content.length, perm⟩
    | some (Node.dir perm) => .ok ⟨4096, ModeDir ||| perm⟩
    | some (Node.other mode) => .ok ⟨0, mode⟩

/-- `os.OpenFile` of the model: a file that does not exist is created, when
`O_CREATE` is given, with mode `perm` (before umask); a file that exists is
truncated when `O_TRUNC` is given; a directory opens for reading only; a socket
does not open. -/
def memOpenFile (root : Bool) (path : String) (flag : Nat) (perm : FileMode) (fs : MemFS) :
    Except SysErr Fd × MemFS :=
  if flag &&& O_CREATE != 0 && hasSuffix path "/" then
    (.error (pathError "open" path Errno.EISDIR), fs)
  else
  match fs.resolveAs root path with
  | .error e => (.error (pathError "open" path e), fs)
  | .ok k =>
    match fs.get k with
    | some (Node.dir p) =>
      if flag &&& (O_WRONLY ||| O_RDWR ||| O_CREATE) != 0 then
        (.error (pathError "open" path Errno.EISDIR), fs)
      else if !mayOpen root p flag then (.error (pathError "open" path Errno.EACCES), fs)
      else (.ok ⟨k, path, flag⟩, fs)
    | some (Node.file p _) =>
      if flag &&& O_CREATE != 0 && flag &&& O_EXCL != 0 then
        (.error (pathError "open" path Errno.EEXIST), fs)
      else if !mayOpen root p flag then (.error (pathError "open" path Errno.EACCES), fs)
      else if flag &&& O_TRUNC != 0 then (.ok ⟨k, path, flag⟩, fs.set k (Node.file p []))
      else (.ok ⟨k, path, flag⟩, fs)
    | some (Node.other m) =>
      if flag &&& O_CREATE != 0 && flag &&& O_EXCL != 0 then
        (.error (pathError "open" path Errno.EEXIST), fs)
      else if m &&& ModeSocket != 0 then (.error (pathError "open" path Errno.ENXIO_), fs)
      else if !mayOpen root m flag then (.error (pathError "open" path Errno.EACCES), fs)
      else (.ok ⟨k, path, flag⟩, fs)
    | none =>
      if flag &&& O_CREATE != 0 then
        if !fs.mayChange root k.dropLast then
          (.error (pathError "open" path Errno.EACCES), fs)
        else
          (.ok ⟨k, path, flag⟩,
            fs.set k (Node.file (andNot (chmodBits perm) (fs.umask &&& ModePerm)) []))
      else (.error (pathError "open" path Errno.ENOENT), fs)

/-- `(*File).Write` of the model: with `O_APPEND` the data goes to the end of
the file, otherwise to the offset of the handle, which is zero; what is written
to a device or a pipe is not kept. -/
def memWrite (fd : Fd) (data : Bytes) (fs : MemFS) : Option SysErr × MemFS :=
  if fd.flag &&& (O_WRONLY ||| O_RDWR) != 0 then
    match fs.get fd.key with
    | some (Node.file p c) =>
      if fd.flag &&& O_APPEND != 0 then (none, fs.set fd.key (Node.file p (c ++ data)))
      else (none, fs.set fd.key (Node.file p (data ++ c.drop data.length)))
    | some (Node.other _) => (none, fs)
    | _ => (some (pathError "write" fd.name Errno.EBADF), fs)
  else (some (pathError "write" fd.name Errno.EBADF), fs)

/-- The last element of a key, as a name. -/
def keyName (k : Key) : String := ⟨k.getLastD []⟩

/-- What a directory read with count `n` returns of the entries `l`: with
`n > 0` at most `n` entries, and `io.EOF` when there is none; otherwise all the
entries and no error. -/
def readCount {α : Type} (l : List α) (n : Int) : List α × Option DirErr :=
  if n > 0 then
    if l.isEmpty then ([], some DirErr.eof) else (l.take n.toNat, none)
  else (l, none)

/-- `(*File).Readdirnames` of the model. -/
def memReaddirnames (fd : Fd) (n : Int) (fs : MemFS) : List String × Option DirErr :=
  match fs.get fd.key with
  | some (Node.dir _) => readCount ((fs.children fd.key).map (fun kv => keyName kv.1)) n
  | some _ => ([], some (DirErr.sys (pathError "readdirent" fd.name Errno.ENOTDIR)))
  | none => ([], some (DirErr.sys (pathError "readdirent" fd.name Errno.ENOENT)))

/-- `(*File).ReadDir` of the model. -/
def memReadDir (fd : Fd) (n : Int) (fs : MemFS) : List DirEntry × Option DirErr :=
  match fs.get fd.key with
  | some (Node.dir _) =>
    readCount ((fs.children fd.key).map (fun kv => ⟨keyName kv.1, kv.2.typeBits⟩)) n
  | some _ => ([], some (DirErr.sys (pathError "readdirent" fd.name Errno.ENOTDIR)))
  | none => ([], some (DirErr.sys (pathError "readdirent" fd.name Errno.ENOENT)))

/-- The last element of a path name that is not empty. -/
def lastElem (path : String) : List Char :=
  ((splitSlash path.data).filter (fun e => e != [])).getLastD []

/-- `os.Remove` of the model: unlinks a file, removes an empty directory; a
name that ends in `.` or `..` is not removed. -/
def memRemove (root : Bool) (path : String) (fs : MemFS) : Option SysErr × MemFS :=
  match fs.resolveAs root path with
  | .error e => (some (pathError "remove" path e), fs)
  | .ok k =>
    match fs.get k with
    | none => (some (pathError "remove" path Errno.ENOENT), fs)
    | some (Node.dir _) =>
      if lastElem path = ['.'] then (some (pathError "remove" path Errno.EINVAL), fs)
      else if lastElem path = ['.', '.'] then
        (some (pathError "remove" path Errno.ENOTEMPTY), fs)
      else if k = [] then (some (pathError "remove" path Errno.EBUSY), fs)
      else if !fs.mayChange root k.dropLast then
        (some (pathError "remove" path Errno.EACCES), fs)
      else if (fs.children k).isEmpty then (none, fs.del k)
      else (some (pathError "remove" path Errno.ENOTEMPTY), fs)
    | some _ =>
      if !fs.mayChange root k.dropLast then
        (some (pathError "remove" path Errno.EACCES), fs)
      else (none, fs.del k)

/-- `os.Chmod` of the model: sets the permission, setuid, setgid and sticky
bits of the node, which the process owns. -/
def memChmod (root : Bool) (path : String) (mode : FileMode) (fs : MemFS) :
    Option SysErr × MemFS :=
  match fs.resolveAs root path with
  | .error e => (some (pathError "chmod" path e), fs)
  | .ok k =>
    match fs.get k with
    | none => (some (pathError "chmod" path Errno.ENOENT), fs)
    | some (Node.file _ c) => (none, fs.set k (Node.file (chmodBits mode) c))
    | some (Node.dir _) =>
      if k = [] then (none, fs) else (none, fs.set k (Node.dir (chmodBits mode)))
    | some (Node.other m) =>
      (none, fs.set k (Node.other ((m &&& ModeType) ||| chmodBits mode)))

/-- `os.ReadFile` of the model: the whole content of a regular file; a device
or a pipe is read as empty. -/
def memReadFile (root : Bool) (path : String) (fs : MemFS) : Except SysErr Bytes :=
  match fs.resolveAs root path with
  | .error e => .error (pathError "open" path e)
  | .ok k =>
    match fs.get k with
    | none => .error (pathError "open" path Errno.ENOENT)
    | some (Node.file p c) =>
      if !mayOpen root p O_RDONLY then .error (pathError "open" path Errno.EACCES)
      else .ok c
    | some (Node.dir p) =>
      if !mayOpen root p O_RDONLY then .error (pathError "open" path Errno.EACCES)
      else .error (pathError "read" path Errno.EISDIR)
    | some (Node.other m) =>
      if m &&& ModeSocket != 0 then .error (pathError "open" path Errno.ENXIO_)
      else if !mayOpen root m O_RDONLY then .error (pathError "open" path Errno.EACCES)
      else .ok []

/-- `os.UserHomeDir` of the model: the variable `HOME`, an error when it is
empty. -/
def memUserHomeDir (fs : MemFS) : Except SysErr String :=
  if fs.home = "" then .error ⟨"$HOME is not defined", false⟩ else .ok fs.home

/-- `os.Getwd` of the model. -/
def memGetwd (fs : MemFS) : Except SysErr String :=
  .ok ⟨'/' :: joinSlash fs.cwd⟩

/-- The modelled platform of a process that is privileged (`root`) or not. -/
def posixOS (root : Bool) : OS MemFS Fd where
  Stat := memStat root
  OpenFile := memOpenFile root
  Close := fun _ fs => fs
  Readdirnames := memReaddirnames
  ReadDir := memReadDir
  Write := memWrite
  Remove := memRemove root
  Chmod := memChmod root
  ReadFile := memReadFile root
  UserHomeDir := memUserHomeDir
  Getwd := memGetwd

/-- The modelled platform of a privileged process. -/
def memOS : OS MemFS Fd := posixOS true

/-- A state of the modelled platform: the directory `/d` holding the regular
file `a.txt`, the regular file `b.md` and the directory `c`, and the empty
directory `/e`; the working directory is the root, the umask is 022 and the
home directory is `/home/u`. -/
def fsDemo : MemFS :=
  ⟨[([['d']], Node.dir 0o755),
    ([['d'], "a.txt".data], Node.file 0o644 [104, 105]),
    ([['d'], "b.md".data], Node.file 0o644 []),
    ([['d'], ['c']], Node.dir 0o755),
    ([['e']], Node.dir 0o755)],
   [], 0o022, "/home/u"⟩

/-- The modelled platform with a disk fault: a directory read returns the
first entry only, together with an I/O error. -/
def faultyOS : OS MemFS Fd where
  Stat := memStat true
  OpenFile := memOpenFile true
  Close := fun _ fs => fs
  Readdirnames := memReaddirnames
  ReadDir := fun fd n fs =>
    ((memReadDir fd n fs).1.take 1,
      some (DirErr.sys ⟨"readdirent " ++ fd.name ++ ": input/output error", false⟩))
  Write := memWrite
  Remove := memRemove true
  Chmod := memChmod true
  ReadFile := memReadFile true
  UserHomeDir := memUserHomeDir
  Getwd := memGetwd

/-- A state of the modelled platform: the directory `/t` holding the regular
file `a.tar.gz`. -/
def fsTar : MemFS :=
  ⟨[([['t']], Node.dir 0o755),
    ([['t'], "a.tar.gz".data], Node.file 0o644 [])],
   [], 0o022, "/home/u"⟩

/-! ## Theorems -/

/-- A mode without type bits is not the mode of a directory. -/
theorem isRegular_not_isDir (m : FileMode) (h : FileMode.IsRegular m = true) :
    FileMode.IsDir m = false := by
  have hc : ModeType &&& ModeDir = ModeDir := by decide
  have h0 : m &&& ModeType = 0 := by simpa [FileMode.IsRegular] using h
  have : m &&& ModeDir = 0 := by
    rw [← hc, ← Nat.land_assoc, h0, Nat.zero_and]
  simp [FileMode.IsDir, this]

/-- C1: `TestPath` classifies every outcome of the stat: a not-exist error
gives `NotExist`, any other error `BadPath`, a directory `Directory`, a regular
file `File`, anything else `IrregularPath`; `NotExist` is returned exactly for
a not-exist error, and the five values are pairwise distinct. -/
theorem TestPath_classification (os : OS σ η) (path : String) (s : σ) :
    (∀ err, os.Stat path s = .error err → err.notExist = true →
        TestPath os path s = NotExist) ∧
    (∀ err, os.Stat path s = .error err → err.notExist = false →
        TestPath os path s = BadPath) ∧
    (∀ stat, os.Stat path s = .ok stat → stat.IsDir = true →
        TestPath os path s = Directory) ∧
    (∀ stat, os.Stat path s = .ok stat → FileMode.IsRegular stat.Mode = true →
        TestPath os path s = File) ∧
    (∀ stat, os.Stat path s = .ok stat → stat.IsDir = false →
        FileMode.IsRegular stat.Mode = false → TestPath os path s = IrregularPath) ∧
    (TestPath os path s = NotExist ↔
        ∃ err, os.Stat path s = .error err ∧ err.notExist = true) ∧
    [NotExist, Directory, File, IrregularPath, BadPath].Nodup := by
  refine ⟨?_, ?_, ?_, ?_, ?_, ?_, by decide⟩
  · intro err h hn; simp [TestPath, h, hn]
  · intro err h hn; simp [TestPath, h, hn]
  · intro stat h hd; simp [TestPath, h, hd]
  · intro stat h hr
    have hd : stat.IsDir = false := isRegular_not_isDir _ hr
    simp [TestPath, h, hd, hr]
  · intro stat h hd hr; simp [TestPath, h, hd, hr]
  · unfold TestPath
    cases h : os.Stat path s with
    | error err =>
      cases hn : err.notExist <;> simp [hn, NotExist, BadPath]
    | ok stat =>
      cases hd : stat.IsDir <;> cases hr : FileMode.IsRegular stat.Mode <;>
        simp [hd, hr, NotExist, Directory, File, IrregularPath]

/-- Witness of C1 on the modelled platform: a missing path, a path below a
regular file, a directory and a regular file. -/
theorem TestPath_classification_witness :
    TestPath memOS "/d/zz" fsDemo = NotExist ∧
    TestPath memOS "/d/a.txt/x" fsDemo = BadPath ∧
    TestPath memOS "/d" fsDemo = Directory ∧
    TestPath memOS "/d/a.txt" fsDemo = File :=
  ⟨(TestPath_classification memOS "/d/zz" fsDemo).1
      (pathError "stat" "/d/zz" Errno.ENOENT) (by decide) (by decide),
   (TestPath_classification memOS "/d/a.txt/x" fsDemo).2.1
      (pathError "stat" "/d/a.txt/x" Errno.ENOTDIR) (by decide) (by decide),
   (TestPath_classification memOS "/d" fsDemo).2.2.1
      ⟨4096, ModeDir ||| 0o755⟩ (by decide) (by decide),
   (TestPath_classification memOS "/d/a.txt" fsDemo).2.2.2.1
      ⟨2, 0o644⟩ (by decide) (by decide)⟩

/-- C5: with `maxBytes > 0`, a successful stat and a path that is not a
directory, `ReadFile` fails with `ErrFileTooBig` exactly when the size is
strictly greater than `maxBytes`, and otherwise returns what the underlying
read returns; a stat error is returned as it is, a directory gives
`ErrNotFile`, and with `maxBytes <= 0` the result is that of the underlying
read whatever the stat says. -/
theorem ReadFile_size_guard (os : OS σ η) (path : String) (maxBytes : Int) (s : σ) :
    (0 < maxBytes → ∀ stat, os.Stat path s = .ok stat → stat.IsDir = false →
      (ReadFile os path maxBytes s = .error Error.ErrFileTooBig ↔ maxBytes < stat.Size) ∧
      (stat.Size ≤ maxBytes →
        ReadFile os path maxBytes s = (os.ReadFile path s).mapError Error.sys)) ∧
    (0 < maxBytes → ∀ err, os.Stat path s = .error err →
      ReadFile os path maxBytes s = .error (Error.sys err)) ∧
    (0 < maxBytes → ∀ stat, os.Stat path s = .ok stat → stat.IsDir = true →
      ReadFile os path maxBytes s = .error Error.ErrNotFile) ∧
    (maxBytes ≤ 0 →
      ReadFile os path maxBytes s = (os.ReadFile path s).mapError Error.sys) := by
  refine ⟨?_, ?_, ?_, ?_⟩
  · intro hm stat hs hd
    by_cases hlt : maxBytes < stat.Size
    · simp [ReadFile, hm, hs, hd, hlt, not_le.mpr hlt]
    · have hle : stat.Size ≤ maxBytes := not_lt.mp hlt
      simp only [ReadFile, hm, hs, hd, hlt, if_true]
      cases os.ReadFile path s <;> simp [Except.mapError, hle]
  · intro hm err hs; simp [ReadFile, hm, hs]
  · intro hm stat hs hd; simp [ReadFile, hm, hs, hd]
  · intro hm; simp [ReadFile, not_lt.mpr hm]

/-- Witness of C5: a file of two bytes read with the ceilings 2, 1 and 0, and a
directory. -/
theorem ReadFile_size_guard_witness :
    (ReadFile memOS "/d/a.txt" 2 fsDemo = .ok [104, 105]) ∧
    (ReadFile memOS "/d/a.txt" 1 fsDemo = .error Error.ErrFileTooBig) ∧
    (ReadFile memOS "/d" 1 fsDemo = .error Error.ErrNotFile) ∧
    (ReadFile memOS "/d/a.txt" 0 fsDemo = .ok [104, 105]) :=
  ⟨(((ReadFile_size_guard memOS "/d/a.txt" 2 fsDemo).1 (by decide) ⟨2, 0o644⟩
      (by decide) (by decide)).2 (by decide)).trans (by decide),
   (((ReadFile_size_guard memOS "/d/a.txt" 1 fsDemo).1 (by decide) ⟨2, 0o644⟩
      (by decide) (by decide)).1).mpr (by decide),
   (ReadFile_size_guard memOS "/d" 1 fsDemo).2.2.1 (by decide) ⟨4096, ModeDir ||| 0o755⟩
      (by decide) (by decide),
   ((ReadFile_size_guard memOS "/d/a.txt" 0 fsDemo).2.2.2 (by decide)).trans (by decide)⟩

/-- C8: when `TestPath` does not classify the path as `File`, `RemoveFile`
returns `ErrNotFile` and the state of the platform is the one it was called
in, for either value of `deleteEmptyDir`. -/
theorem RemoveFile_rejects_non_file (os : OS σ η) (path : String) (deleteEmptyDir : Bool)
    (s : σ) (h : TestPath os path s ≠ File) :
    RemoveFile os path deleteEmptyDir s = (some Error.ErrNotFile, s) := by
  simp [RemoveFile, h]

/-- Witness of C8: a directory and a missing path. -/
theorem RemoveFile_rejects_non_file_witness :
    RemoveFile memOS "/d" true fsDemo = (some Error.ErrNotFile, fsDemo) ∧
    RemoveFile memOS "/d/zz" false fsDemo = (some Error.ErrNotFile, fsDemo) :=
  ⟨RemoveFile_rejects_non_file memOS "/d" true fsDemo (by decide),
   RemoveFile_rejects_non_file memOS "/d/zz" false fsDemo (by decide)⟩

/-- What `filepath.Ext` finds is empty or a suffix of what it scanned. -/
theorem extScan_suffix (r acc : List Char) :
    extScan r acc = [] ∨ extScan r acc <:+ r.reverse ++ acc := by
  induction r generalizing acc with
  | nil => simp [extScan]
  | cons c r ih =>
    unfold extScan
    by_cases h1 : c = '/'
    · simp [h1]
    · by_cases h2 : c = '.'
      · right
        simp only [h1, h2, if_false, if_true, List.reverse_cons, List.append_assoc,
          List.singleton_append]
        exact List.suffix_append _ _
      · simp only [h1, h2, if_false]
        rcases ih (c :: acc) with h | h
        · exact Or.inl h
        · right
          simpa [List.reverse_cons, List.append_assoc] using h

/-- The scan of `filepath.Ext` over characters that are neither a dot nor a
separator stops at the dot before them. -/
theorem extScan_stops (l p acc : List Char) (h : ∀ c ∈ l, c ≠ '.' ∧ c ≠ '/') :
    extScan (l ++ '.' :: p) acc = '.' :: (l.reverse ++ acc) := by
  induction l generalizing acc with
  | nil => simp [extScan]
  | cons c l ih =>
    have hc := h c (List.mem_cons_self _ _)
    have hl : ∀ d ∈ l, d ≠ '.' ∧ d ≠ '/' := fun d hd => h d (List.mem_cons_of_mem _ hd)
    have ht := ih (c :: acc) hl
    rw [List.cons_append]
    unfold extScan
    simp only [hc.1, hc.2, if_false]
    rw [ht]
    simp [List.reverse_cons, List.append_assoc]

/-- For a filter without dot and separator, the extension of a name is the
filter after a dot exactly when the name ends in it. -/
theorem filepathExt_eq_iff_hasSuffix (name ext : String)
    (h : ∀ c ∈ ext.data, c ≠ '.' ∧ c ≠ '/') :
    filepathExt name = "." ++ ext ↔ hasSuffix name ("." ++ ext) = true := by
  have hd : ("." ++ ext).data = '.' :: ext.data := rfl
  rw [String.ext_iff, hasSuffix, List.isSuffixOf_iff_suffix, hd]
  show extScan name.data.reverse [] = '.' :: ext.data ↔ _
  constructor
  · intro he
    rcases extScan_suffix name.data.reverse [] with h0 | hs
    · rw [he] at h0; cases h0
    · rw [he] at hs; simpa using hs
  · rintro ⟨pre, hp⟩
    have hr : name.data.reverse = ext.data.reverse ++ '.' :: pre.reverse := by
      rw [← hp]; simp [List.reverse_append]
    rw [hr, extScan_stops _ _ _ (by simpa using h)]
    simp

/-- The loop of `Dir` keeps, in order, the names of the entries that are
regular files and pass the filter. -/
theorem foldl_dirStep (fe : String) (items : List DirEntry) (acc : List String) :
    items.foldl (dirStep fe) acc =
      acc ++ (items.filter (fun v => FileMode.IsRegular v.Type_ &&
        (fe == "" || filepathExt v.Name == fe))).map DirEntry.Name := by
  induction items generalizing acc with
  | nil => simp
  | cons v items ih =>
    rw [List.foldl_cons, ih]
    cases hr : FileMode.IsRegular v.Type_ <;> cases h1 : (fe == "") <;>
      cases h2 : (filepathExt v.Name == fe) <;>
      simp [dirStep, hr, h1, h2, List.filter_cons]

/-- The test of the loop of `Dir` in terms of the filter `ext`. -/
theorem fullExt_test (ext name : String) :
    (fullExt ext == "" || filepathExt name == fullExt ext) =
      (ext == "" || ext == "*" || filepathExt name == "." ++ ext) := by
  have hne : ("." ++ ext == "") = false := by
    rw [beq_eq_false_iff_ne, Ne, String.ext_iff]
    show ¬ ('.' :: ext.data = [])
    simp
  by_cases h1 : ext = ""
  · subst h1; simp [fullExt]
  · by_cases h2 : ext = "*"
    · subst h2; simp [fullExt]
    · simp [fullExt, h1, h2, hne]

/-- C2, amended: when the directory opens and its read ends without error,
`Dir` returns, in the order of the enumeration, the names of the entries that
are regular files and, unless the filter is empty or `*`, whose extension
`filepath.Ext` (from the last dot of the name on) is the filter after a dot; for
a filter without dot and separator that is the names ending in a dot and the
filter. -/
theorem Dir_retains (os : OS σ η) (path ext : String) (maxfile : Int) (s : σ)
    (fd : η) (s1 : σ) (hopen : os.Open path s = (.ok fd, s1))
    (heof : (os.ReadDir fd maxfile s1).2 ≠ some DirErr.eof)
    (hnd : notADirectory (os.ReadDir fd maxfile s1).2 = false) :
    (Dir os path ext maxfile s).1 =
      (some (((os.ReadDir fd maxfile s1).1.filter (fun v => FileMode.IsRegular v.Type_ &&
        (ext == "" || ext == "*" || filepathExt v.Name == "." ++ ext))).map DirEntry.Name),
        none) ∧
    ((∀ c ∈ ext.data, c ≠ '.' ∧ c ≠ '/') →
      (Dir os path ext maxfile s).1 =
        (some (((os.ReadDir fd maxfile s1).1.filter (fun v => FileMode.IsRegular v.Type_ &&
          (ext == "" || ext == "*" || hasSuffix v.Name ("." ++ ext)))).map DirEntry.Name),
          none)) := by
  have h1 : (Dir os path ext maxfile s).1 =
      (some (((os.ReadDir fd maxfile s1).1.filter (fun v => FileMode.IsRegular v.Type_ &&
        (ext == "" || ext == "*" || filepathExt v.Name == "." ++ ext))).map DirEntry.Name),
        none) := by
    simp only [Dir, hopen, heof, hnd, if_false, foldl_dirStep, List.nil_append, fullExt_test]
    simp
  refine ⟨h1, fun hext => ?_⟩
  rw [h1]
  congr 3
  apply List.filter_congr
  intro v _
  have := filepathExt_eq_iff_hasSuffix v.Name ext hext
  have hb : (filepathExt v.Name == "." ++ ext) = hasSuffix v.Name ("." ++ ext) := by
    cases hs : hasSuffix v.Name ("." ++ ext)
    · rw [beq_eq_false_iff_ne]
      intro h
      rw [this.mp h] at hs
      cases hs
    · rw [beq_iff_eq]
      exact this.mpr hs
  rw [hb]

/-- Witness of C2: the directory with `a.txt`, `b.md` and the directory `c`,
listed with the filters `txt` and `*`. -/
theorem Dir_retains_witness :
    (Dir memOS "/d" "txt" 0 fsDemo).1 = (some ["a.txt"], none) ∧
    (Dir memOS "/d" "*" 0 fsDemo).1 = (some ["a.txt", "b.md"], none) :=
  ⟨((Dir_retains memOS "/d" "txt" 0 fsDemo ⟨[['d']], "/d", 0⟩ fsDemo
      (by decide) (by decide) (by decide)).2 (by decide)).trans (by decide),
   ((Dir_retains memOS "/d" "*" 0 fsDemo ⟨[['d']], "/d", 0⟩ fsDemo
      (by decide) (by decide) (by decide)).1).trans (by decide)⟩

/-- Counterexample of C2 as stated: the regular file `a.tar.gz` is enumerated
and ends in a dot and the filter `tar.gz`, and `Dir` does not retain it. -/
theorem Dir_suffix_counterexample :
    (⟨"a.tar.gz", 0⟩ : DirEntry) ∈ (memOS.ReadDir ⟨[['t']], "/t", 0⟩ 0 fsTar).1 ∧
    FileMode.IsRegular 0 = true ∧
    (Dir memOS "/t" "tar.gz" 0 fsTar).1 = (some [], none) ∧
    ¬ ("a.tar.gz" ∈ ((Dir memOS "/t" "tar.gz" 0 fsTar).1.1.getD []) ↔
        hasSuffix "a.tar.gz" ("." ++ "tar.gz") = true) := by
  decide

/-- C3, the code at the failing input: on an empty directory read with a
positive count the enumeration reports end-of-entries, and `Dir` and `Subdir`
return a nil slice together with a nil error. -/
theorem Dir_nil_slice_on_eof :
    (memOS.ReadDir ⟨[['e']], "/e", 0⟩ 1 fsDemo) = ([], some DirErr.eof) ∧
    (Dir memOS "/e" "" 1 fsDemo).1 = (none, none) ∧
    (Subdir memOS "/e" 1 fsDemo).1 = (none, none) := by
  decide

/-- C4, the code at the failing input: the directory read fails with an I/O
error after the first entry, and `Dir` and `Subdir` return what was read with a
nil error. -/
theorem Dir_drops_read_error :
    (faultyOS.ReadDir ⟨[['d']], "/d", 0⟩ 0 fsDemo) =
      ([⟨"a.txt", 0⟩], some (DirErr.sys ⟨"readdirent /d: input/output error", false⟩)) ∧
    (Dir faultyOS "/d" "" 0 fsDemo).1 = (some ["a.txt"], none) ∧
    (Subdir faultyOS "/d" 0 fsDemo).1 = (some [], none) := by
  decide

/-- Opening a path read-only in the model yields a handle at its key and
leaves the state as it is, for a directory and for a regular file. -/
theorem memOS_Open (fs : MemFS) (path : String) (k : Key) (n : Node)
    (hr : fs.resolve path = .ok k) (hg : fs.get k = some n)
    (hn : ∀ m, n ≠ Node.other m) :
    memOS.Open path fs = (.ok ⟨k, path, 0⟩, fs) := by
  have hr2 : fs.resolveAs true path = .ok k := hr
  cases n with
  | file p c =>
    simp [OS.Open, memOS, posixOS, memOpenFile, hr2, hg, O_RDONLY, mayOpen]
  | dir p =>
    simp [OS.Open, memOS, posixOS, memOpenFile, hr2, hg, O_RDONLY, mayOpen]
  | other m => exact absurd rfl (hn m)

/-- The text of a path error ends in the text of its error number. -/
theorem pathError_hasSuffix (op path : String) (e : Errno) :
    hasSuffix (pathError op path e).msg e.msg = true := by
  rw [hasSuffix, List.isSuffixOf_iff_suffix]
  exact ⟨(op ++ " " ++ path ++ ": ").data, rfl⟩

/-- C9: for a path that opens, `IsEmptyDir` returns `(true, nil)` exactly when
reading one entry name reports end-of-entries, `(false, nil)` when the read
succeeds, `(false, ErrNotDir)` when the read fails with a not-a-directory error,
and `(false, err)` with the error of the read for any other failure; it never
returns `true` with an error.  On the modelled platform a directory gives
`true` exactly when it has no entry, and a regular file gives `ErrNotDir`. -/
theorem IsEmptyDir_result (os : OS σ η) (path : String) (s : σ) (fd : η) (s1 : σ)
    (hopen : os.Open path s = (.ok fd, s1)) :
    ((IsEmptyDir os path s).1 = (true, none) ↔
      (os.Readdirnames fd 1 s1).2 = some DirErr.eof) ∧
    ((os.Readdirnames fd 1 s1).2 = none → (IsEmptyDir os path s).1 = (false, none)) ∧
    (notADirectory (os.Readdirnames fd 1 s1).2 = true →
      (IsEmptyDir os path s).1 = (false, some Error.ErrNotDir)) ∧
    (∀ e, (os.Readdirnames fd 1 s1).2 = some (DirErr.sys e) →
      hasSuffix e.msg "not a directory" = false →
      (IsEmptyDir os path s).1 = (false, some (Error.sys e))) ∧
    (∀ e, (IsEmptyDir os path s).1 ≠ (true, some e)) ∧
    (∀ (fs : MemFS) (p : String) (k : Key), fs.resolve p = .ok k →
      (∀ perm, fs.get k = some (Node.dir perm) →
        IsEmptyDir memOS p fs = (((fs.children k).isEmpty, none), fs)) ∧
      (∀ perm c, fs.get k = some (Node.file perm c) →
        IsEmptyDir memOS p fs = ((false, some Error.ErrNotDir), fs))) := by
  have hE : notADirectory (some DirErr.eof) = false := by decide
  refine ⟨?_, ?_, ?_, ?_, ?_, ?_⟩
  · simp only [IsEmptyDir, hopen]
    by_cases h : (os.Readdirnames fd 1 s1).2 = some DirErr.eof
    · simp [h]
    · cases hn : notADirectory (os.Readdirnames fd 1 s1).2 <;> simp [h, hn]
  · intro h
    simp [IsEmptyDir, hopen, h, notADirectory]
  · intro h
    have hne : (os.Readdirnames fd 1 s1).2 ≠ some DirErr.eof := by
      intro he; rw [he, hE] at h; cases h
    simp [IsEmptyDir, hopen, h, hne]
  · intro e he hs
    simp [IsEmptyDir, hopen, he, notADirectory, DirErr.toError, Error.Error, hs]
  · intro e
    simp only [IsEmptyDir, hopen]
    by_cases h : (os.Readdirnames fd 1 s1).2 = some DirErr.eof
    · simp [h]
    · cases hn : notADirectory (os.Readdirnames fd 1 s1).2 <;> simp [h, hn]
  · intro fs p k hr
    constructor
    · intro perm hg
      have ho := memOS_Open fs p k _ hr hg (by intro m; simp)
      have hrd : memOS.Readdirnames ⟨k, p, 0⟩ 1 fs =
          readCount ((fs.children k).map (fun kv => keyName kv.1)) 1 := by
        simp [memOS, posixOS, memReaddirnames, hg]
      have hcl : ∀ fd, memOS.Close fd fs = fs := fun _ => rfl
      simp only [IsEmptyDir, ho, hrd, hcl]
      cases hc : fs.children k with
      | nil => simp [readCount]
      | cons a l => simp [readCount, notADirectory]
    · intro perm c hg
      have ho := memOS_Open fs p k _ hr hg (by intro m; simp)
      have hrd : memOS.Readdirnames ⟨k, p, 0⟩ 1 fs =
          ([], some (DirErr.sys (pathError "readdirent" p Errno.ENOTDIR))) := by
        simp [memOS, posixOS, memReaddirnames, hg]
      have hs := pathError_hasSuffix "readdirent" p Errno.ENOTDIR
      have hcl : ∀ fd, memOS.Close fd fs = fs := fun _ => rfl
      have hnd : notADirectory
          (some (DirErr.sys (pathError "readdirent" p Errno.ENOTDIR))) = true := hs
      simp only [IsEmptyDir, ho, hrd, hcl, hnd]
      simp

/-- Witness of C9: the empty directory `/e` is empty; after a file is written
into it, it is not, and the file is not a directory; after the file is removed,
the directory is empty again. -/
theorem IsEmptyDir_result_witness :
    (IsEmptyDir memOS "/e" fsDemo).1 = (true, none) ∧
    (IsEmptyDir memOS "/e" (WriteFile memOS "/e/a.txt" [104] 0o644 fsDemo).2).1 =
      (false, none) ∧
    (IsEmptyDir memOS "/e/a.txt" (WriteFile memOS "/e/a.txt" [104] 0o644 fsDemo).2).1 =
      (false, some Error.ErrNotDir) ∧
    (IsEmptyDir memOS "/e"
      (memOS.Remove "/e/a.txt" (WriteFile memOS "/e/a.txt" [104] 0o644 fsDemo).2).2).1 =
      (true, none) :=
  ⟨(IsEmptyDir_result memOS "/e" fsDemo ⟨[['e']], "/e", 0⟩ fsDemo (by decide)).1.mpr
      (by decide),
   (IsEmptyDir_result memOS "/e" (WriteFile memOS "/e/a.txt" [104] 0o644 fsDemo).2
      ⟨[['e']], "/e", 0⟩ (WriteFile memOS "/e/a.txt" [104] 0o644 fsDemo).2
      (by decide)).2.1 (by decide),
   (IsEmptyDir_result memOS "/e/a.txt" (WriteFile memOS "/e/a.txt" [104] 0o644 fsDemo).2
      ⟨[['e'], "a.txt".data], "/e/a.txt", 0⟩
      (WriteFile memOS "/e/a.txt" [104] 0o644 fsDemo).2 (by decide)).2.2.1 (by decide),
   (IsEmptyDir_result memOS "/e"
      (memOS.Remove "/e/a.txt" (WriteFile memOS "/e/a.txt" [104] 0o644 fsDemo).2).2
      ⟨[['e']], "/e", 0⟩
      (memOS.Remove "/e/a.txt" (WriteFile memOS "/e/a.txt" [104] 0o644 fsDemo).2).2
      (by decide)).1.mpr (by decide)⟩

/-- A path has at least one element. -/
theorem splitSlash_ne_nil (l : List Char) : splitSlash l ≠ [] := by
  cases l with
  | nil => simp [splitSlash]
  | cons c l =>
    unfold splitSlash
    by_cases h : c = '/'
    · simp [h]
    · simp only [h, if_false]
      cases splitSlash l <;> simp

/-- A separator at the end of a path adds an empty element. -/
theorem splitSlash_append_slash (l : List Char) :
    splitSlash (l ++ ['/']) = splitSlash l ++ [[]] := by
  induction l with
  | nil => simp [splitSlash]
  | cons c l ih =>
    rw [List.cons_append]
    unfold splitSlash
    by_cases h : c = '/'
    · simp [h, ih]
    · simp only [h, if_false, ih]
      cases hs : splitSlash l with
      | nil => exact absurd hs (splitSlash_ne_nil l)
      | cons e es => simp

/-- `filepath.Clean` ignores a separator at the end of a non-empty path. -/
theorem filepathClean_append_slash (x : String) (hx : x ≠ "") :
    filepathClean (x ++ "/") = filepathClean x := by
  have hd : (x ++ "/").data = x.data ++ ['/'] := rfl
  have hp : hasPrefix (x ++ "/") "/" = hasPrefix x "/" := by
    have : x.data ≠ [] := fun h => hx (String.ext h)
    cases hxd : x.data with
    | nil => exact absurd hxd this
    | cons c cs => simp [hasPrefix, hd, hxd, List.isPrefixOf]
  simp only [filepathClean, hp, hd, splitSlash_append_slash, List.foldl_append,
    List.foldl_cons, List.foldl_nil]
  simp [cleanStep]

/-- `filepath.Abs` ignores a separator at the end of a non-empty path. -/
theorem filepathAbs_append_slash (os : OS σ η) (x : String) (s : σ) (hx : x ≠ "") :
    filepathAbs os (x ++ "/") s = filepathAbs os x s := by
  have hd : (x ++ "/").data = x.data ++ ['/'] := rfl
  have hp : hasPrefix (x ++ "/") "/" = hasPrefix x "/" := by
    have : x.data ≠ [] := fun h => hx (String.ext h)
    cases hxd : x.data with
    | nil => exact absurd hxd this
    | cons c cs => simp [hasPrefix, hd, hxd, List.isPrefixOf]
  have hne : x ++ "/" ≠ "" := by
    intro h
    have := congrArg String.data h
    rw [hd] at this
    simp at this
  have hj : ∀ wd, filepathJoin wd (x ++ "/") = filepathJoin wd x := by
    intro wd
    unfold filepathJoin
    by_cases hw : wd = ""
    · simp [hw, hne, hx, filepathClean_append_slash x hx]
    · have hwx : wd ++ "/" ++ x ≠ "" := by
        intro h
        have := congrArg String.data h
        simp at this
      have := filepathClean_append_slash (wd ++ "/" ++ x) hwx
      simp only [String.append_assoc] at this ⊢
      simp [hw, this]
  unfold filepathAbs filepathIsAbs
  rw [hp, filepathClean_append_slash x hx]
  cases os.Getwd s <;> simp [hj]

/-- The byte length of a path with the prefix `~/` is two exactly when nothing
follows the prefix. -/
theorem len_home_eq_two (rest : String) : (len ("~/" ++ rest) == 2) = (rest == "") := by
  have hd : ("~/" ++ rest).data = '~' :: '/' :: rest.data := rfl
  have h1 : Char.utf8Size '~' = 1 := by decide
  have h2 : Char.utf8Size '/' = 1 := by decide
  cases hr : rest.data with
  | nil =>
    have : rest = "" := String.ext hr
    subst this
    decide
  | cons c cs =>
    have hne : rest ≠ "" := by
      intro h; rw [h] at hr; cases hr
    have hpos := Char.utf8Size_pos c
    have hl : len ("~/" ++ rest) ≠ 2 := by
      simp only [len, hd, hr, List.map_cons, List.sum_cons, h1, h2]
      omega
    simp [hl, hne]

/-- C10, amended: when the home directory lookup gives a non-empty directory
`h`, `Abs` of a path `~/` followed by `rest` is `filepath.Abs` of `h`, a
separator and `rest`, and `Abs` of `~/` alone is `filepath.Abs` of `h`; the
bare path `~` does not have the prefix `~/` and is not expanded: `Abs` returns
`filepath.Abs` of the path `~` itself. -/
theorem Abs_home (os : OS σ η) (s : σ) (h : String)
    (hh : os.UserHomeDir s = .ok h) (hne : h ≠ "") :
    (∀ rest, Abs os ("~/" ++ rest) s = filepathAbs os (h ++ "/" ++ rest) s) ∧
    Abs os "~/" s = filepathAbs os h s ∧
    Abs os "~" s = filepathAbs os "~" s := by
  have hhome : HomeDir os s = h := by simp [HomeDir, hh]
  have hpre : ∀ rest, hasPrefix ("~/" ++ rest) "~/" = true := by
    intro rest
    have hd : ("~/" ++ rest).data = '~' :: '/' :: rest.data := rfl
    simp [hasPrefix, hd, List.isPrefixOf]
  have hdrop : ∀ rest : String, (⟨("~/" ++ rest).data.drop 2⟩ : String) = rest := by
    intro rest; rfl
  have hrest : ∀ rest, Abs os ("~/" ++ rest) s =
      if rest = "" then filepathAbs os h s else filepathAbs os (h ++ "/" ++ rest) s := by
    intro rest
    simp only [Abs, hpre, hhome, len_home_eq_two, hdrop, if_true]
    by_cases hr : rest = ""
    · simp [hr, hne]
    · simp [hr, hne]
  refine ⟨?_, ?_, ?_⟩
  · intro rest
    rw [hrest]
    by_cases hr : rest = ""
    · subst hr
      simp only [if_true]
      have := filepathAbs_append_slash os h s hne
      simpa using this.symm
    · simp [hr]
  · have := hrest ""
    simpa using this
  · have hp : hasPrefix "~" "~/" = false := by decide
    simp [Abs, hp]

/-- Witness of C10: home directory `/home/u`, working directory `/`. -/
theorem Abs_home_witness :
    Abs memOS "~/x/../y" fsDemo = ("/home/u/y", none) ∧
    Abs memOS "~/" fsDemo = ("/home/u", none) ∧
    Abs memOS "~" fsDemo = ("/~", none) :=
  ⟨((Abs_home memOS fsDemo "/home/u" (by decide) (by decide)).1 "x/../y").trans (by decide),
   ((Abs_home memOS fsDemo "/home/u" (by decide) (by decide)).2.1).trans (by decide),
   ((Abs_home memOS fsDemo "/home/u" (by decide) (by decide)).2.2).trans (by decide)⟩

/-- Counterexample of C10 as stated: with the home directory `/home/u` and the
working directory `/`, `Abs` of the bare `~` is `/~`, not the home directory
that `Abs` of `~/` returns. -/
theorem Abs_bare_tilde_counterexample :
    memOS.UserHomeDir fsDemo = .ok "/home/u" ∧
    Abs memOS "~" fsDemo = ("/~", none) ∧
    Abs memOS "~/" fsDemo = ("/home/u", none) ∧
    Abs memOS "~" fsDemo ≠ Abs memOS "~/" fsDemo := by
  decide

/-- The node set at a key is the node found at it. -/
theorem lookup_setNode_same (k : Key) (v : Node) (l : List (Key × Node)) :
    (setNode k v l).lookup k = some v := by
  induction l with
  | nil => simp [setNode, List.lookup]
  | cons kv t ih =>
    obtain ⟨k1, v1⟩ := kv
    unfold setNode
    by_cases h : k1 = k
    · simp [h, List.lookup]
    · have hb : (k == k1) = false := by
        rw [beq_eq_false_iff_ne]; exact fun e => h e.symm
      simp [h, List.lookup, hb, ih]

/-- Setting the node at a key leaves the other keys as they are. -/
theorem lookup_setNode_other (k k2 : Key) (v : Node) (l : List (Key × Node))
    (hk : k2 ≠ k) : (setNode k v l).lookup k2 = l.lookup k2 := by
  induction l with
  | nil =>
    have hb : (k2 == k) = false := by rw [beq_eq_false_iff_ne]; exact hk
    simp [setNode, List.lookup, hb]
  | cons kv t ih =>
    obtain ⟨k1, v1⟩ := kv
    unfold setNode
    by_cases h : k1 = k
    · subst h
      have hb : (k2 == k1) = false := by rw [beq_eq_false_iff_ne]; exact hk
      simp [List.lookup, hb]
    · simp only [h, if_false, List.lookup]
      cases (k2 == k1) <;> simp [ih]

/-- The node set at a key other than the root is the node of the key. -/
theorem get_set_same (fs : MemFS) (k : Key) (v : Node) (hk : k ≠ []) :
    (fs.set k v).get k = some v := by
  simp [MemFS.get, MemFS.set, hk, lookup_setNode_same]

/-- Setting a node leaves the nodes of the other keys as they are. -/
theorem get_set_other (fs : MemFS) (k k2 : Key) (v : Node) (hk : k2 ≠ k) :
    (fs.set k v).get k2 = fs.get k2 := by
  by_cases h : k2 = []
  · simp [MemFS.get, h]
  · simp [MemFS.get, MemFS.set, h, lookup_setNode_other k k2 v _ hk]

/-- Setting a node at a key that holds no directory does not change where a
path resolves to. -/
theorem walkAs_set (fs : MemFS) (root : Bool) (k : Key) (v : Node)
    (hk : ∀ p, fs.get k ≠ some (Node.dir p)) (cur : Key) (es : List (List Char))
    (r : Key) (h : fs.walkAs root cur es = .ok r) :
    (fs.set k v).walkAs root cur es = .ok r := by
  induction es generalizing cur with
  | nil => simpa [MemFS.walkAs] using h
  | cons e rest ih =>
    unfold MemFS.walkAs at h ⊢
    cases hg : fs.get cur with
    | none => simp [hg] at h
    | some n =>
      cases n with
      | file p c => simp [hg] at h
      | other m => simp [hg] at h
      | dir p =>
        have hne : cur ≠ k := by
          intro e; subst e; exact hk p hg
        rw [get_set_other fs k cur v hne, hg]
        simp only [hg] at h
        by_cases h0 : e = []
        · simp only [h0, if_true] at h ⊢
          exact ih _ h
        · by_cases ha : (!root && p &&& 0o100 == 0) = true
          · simp [h0, ha] at h
          · by_cases h1 : e = ['.']
            · simp only [h0, ha, h1, if_false, if_true] at h ⊢
              exact ih _ h
            · by_cases h2 : e = ['.', '.']
              · simp only [h0, ha, h1, h2, if_false, if_true] at h ⊢
                exact ih _ h
              · simp only [h0, ha, h1, h2, if_false] at h ⊢
                exact ih _ h

/-- Setting a node at a key that holds no directory does not change the key a
path name resolves to. -/
theorem resolveAs_set (fs : MemFS) (root : Bool) (k : Key) (v : Node)
    (hk : ∀ p, fs.get k ≠ some (Node.dir p)) (path : String) (r : Key)
    (h : fs.resolveAs root path = .ok r) : (fs.set k v).resolveAs root path = .ok r := by
  unfold MemFS.resolveAs at h ⊢
  by_cases hp : path = ""
  · simp [hp] at h
  · simp only [hp, if_false] at h ⊢
    exact walkAs_set fs root k v hk _ _ r h

/-- A key that holds no node or a regular file is not the root and holds no
directory. -/
theorem prior_not_dir (fs : MemFS) (k : Key)
    (h : fs.get k = none ∨ ∃ p c, fs.get k = some (Node.file p c)) :
    k ≠ [] ∧ ∀ p, fs.get k ≠ some (Node.dir p) := by
  constructor
  · intro hk
    subst hk
    rcases h with h | ⟨p, c, h⟩ <;> simp [MemFS.get] at h
  · intro p hp
    rcases h with h | ⟨q, c, h⟩ <;> simp [hp] at h

/-- `os.Create` of the model on a path that resolves to a key holding no node
or a regular file: it fails and leaves the state as it is, or the key holds an
empty regular file afterwards. -/
theorem posixOS_Create (root : Bool) (fs : MemFS) (path : String) (k : Key)
    (hr : fs.resolveAs root path = .ok k)
    (h : fs.get k = none ∨ ∃ p c, fs.get k = some (Node.file p c)) :
    (∃ e, (posixOS root).Create path fs = (.error e, fs)) ∨
    ∃ p0, (posixOS root).Create path fs =
      (.ok ⟨k, path, O_RDWR ||| O_CREATE ||| O_TRUNC⟩, fs.set k (Node.file p0 [])) := by
  have f1 : ((O_RDWR ||| O_CREATE ||| O_TRUNC) &&& O_CREATE != 0) = true := by decide
  have f2 : ((O_RDWR ||| O_CREATE ||| O_TRUNC) &&& O_EXCL != 0) = false := by decide
  have f3 : ((O_RDWR ||| O_CREATE ||| O_TRUNC) &&& O_TRUNC != 0) = true := by decide
  simp only [OS.Create, posixOS, memOpenFile, f1, f2, f3, Bool.true_and, Bool.and_false]
  cases hsl : hasSuffix path "/"
  · simp only [hr, Bool.false_eq_true, if_false]
    rcases h with h | ⟨p, c, h⟩
    · simp only [h]
      cases hm : fs.mayChange root k.dropLast
      · exact Or.inl ⟨pathError "open" path Errno.EACCES, by simp⟩
      · exact Or.inr ⟨andNot (chmodBits 0o666) (fs.umask &&& ModePerm), by simp⟩
    · simp only [h]
      cases hm : mayOpen root p (O_RDWR ||| O_CREATE ||| O_TRUNC)
      · exact Or.inl ⟨pathError "open" path Errno.EACCES, by simp⟩
      · exact Or.inr ⟨p, by simp⟩
  · exact Or.inl ⟨pathError "open" path Errno.EISDIR, by simp⟩

/-- On every platform, `WriteFile` returns a nil error when create, write and
chmod succeed in this order. -/
theorem WriteFile_ok (os : OS σ η) (path : String) (B : Bytes) (m : FileMode) (s : σ)
    (fd : η) (t1 t2 t3 : σ) (hc : os.Create path s = (.ok fd, t1))
    (hw : os.Write fd B t1 = (none, t2)) (hch : os.Chmod path m t2 = (none, t3)) :
    WriteFile os path B m s = (none, os.Close fd t3) := by
  simp only [WriteFile, hc, hw, hch]

/-- Closing a handle leaves the state of the modelled platform as it is. -/
theorem posixOS_Close (root : Bool) (fd : Fd) (fs : MemFS) :
    (posixOS root).Close fd fs = fs := rfl

/-- The bits that `os.Chmod` sets hold the permission bits of the mode. -/
theorem chmodBits_perm (m : FileMode) :
    FileMode.Perm (chmodBits m) = FileMode.Perm m ∧ chmodBits m &&& 0o400 = m &&& 0o400 := by
  have h1 : (ModePerm ||| ModeSetuid ||| ModeSetgid ||| ModeSticky) &&& ModePerm = ModePerm := by
    decide
  have h2 : (ModePerm ||| ModeSetuid ||| ModeSetgid ||| ModeSticky) &&& 0o400 = 0o400 := by
    decide
  constructor
  · simp only [FileMode.Perm, chmodBits]
    rw [Nat.land_assoc, h1]
  · simp only [chmodBits]
    rw [Nat.land_assoc, h2]

/-- A successful `WriteFile` on the modelled platform, for a path that resolves
to a key holding no node or a regular file: the key holds a regular file with
the data and the bits that `os.Chmod` sets, the path resolves as before and no
other key changes. -/
theorem posixOS_WriteFile (root : Bool) (fs fs1 : MemFS) (path : String) (B : Bytes)
    (m : FileMode) (k : Key) (hr : fs.resolveAs root path = .ok k)
    (h : fs.get k = none ∨ ∃ p c, fs.get k = some (Node.file p c))
    (hw : WriteFile (posixOS root) path B m fs = (none, fs1)) :
    fs1.resolveAs root path = .ok k ∧ fs1.get k = some (Node.file (chmodBits m) B) ∧
      ∀ k2, k2 ≠ k → fs1.get k2 = fs.get k2 := by
  obtain ⟨hk, hnd⟩ := prior_not_dir fs k h
  rcases posixOS_Create root fs path k hr h with ⟨e, hc⟩ | ⟨p0, hc⟩
  · simp [WriteFile, hc] at hw
  · have g1 : (fs.set k (Node.file p0 [])).get k = some (Node.file p0 []) :=
      get_set_same _ _ _ hk
    have r1 : (fs.set k (Node.file p0 [])).resolveAs root path = .ok k :=
      resolveAs_set fs root k _ hnd path k hr
    have w1 : ((O_RDWR ||| O_CREATE ||| O_TRUNC) &&& (O_WRONLY ||| O_RDWR) != 0) = true := by
      decide
    have w2 : ((O_RDWR ||| O_CREATE ||| O_TRUNC) &&& O_APPEND != 0) = false := by decide
    have hwr : (posixOS root).Write ⟨k, path, O_RDWR ||| O_CREATE ||| O_TRUNC⟩ B
        (fs.set k (Node.file p0 [])) =
        (none, (fs.set k (Node.file p0 [])).set k (Node.file p0 B)) := by
      simp only [posixOS, memWrite, g1, w1, w2, if_true]
      simp
    have hnd1 : ∀ p, (fs.set k (Node.file p0 [])).get k ≠ some (Node.dir p) := by
      intro p; rw [g1]; simp
    have g2 : ((fs.set k (Node.file p0 [])).set k (Node.file p0 B)).get k =
        some (Node.file p0 B) := get_set_same _ _ _ hk
    have r2 : ((fs.set k (Node.file p0 [])).set k (Node.file p0 B)).resolveAs root path =
        .ok k := resolveAs_set _ root k _ hnd1 path k r1
    have hnd2 : ∀ p, ((fs.set k (Node.file p0 [])).set k (Node.file p0 B)).get k ≠
        some (Node.dir p) := by
      intro p; rw [g2]; simp
    have hch : (posixOS root).Chmod path m
        ((fs.set k (Node.file p0 [])).set k (Node.file p0 B)) =
        (none, (((fs.set k (Node.file p0 [])).set k (Node.file p0 B)).set k
          (Node.file (chmodBits m) B))) := by
      simp only [posixOS, memChmod, r2, g2]
    have hfin : WriteFile (posixOS root) path B m fs =
        (none, (((fs.set k (Node.file p0 [])).set k (Node.file p0 B)).set k
          (Node.file (chmodBits m) B))) :=
      (WriteFile_ok (posixOS root) path B m fs _ _ _ _ hc hwr hch).trans
        (congrArg (Prod.mk none) (posixOS_Close root _ _))
    rw [hfin] at hw
    have hfs : fs1 = (((fs.set k (Node.file p0 [])).set k (Node.file p0 B)).set k
          (Node.file (chmodBits m) B)) := (Prod.mk.inj hw).2.symm
    subst hfs
    refine ⟨resolveAs_set _ root k _ hnd2 path k r2, get_set_same _ _ _ hk, ?_⟩
    intro k2 hk2
    rw [get_set_other _ _ _ _ hk2, get_set_other _ _ _ _ hk2, get_set_other _ _ _ _ hk2]

/-- Stat and read of a regular file on the modelled platform: the read gives
the content when the process is privileged or the file has the owner read bit,
and a permission error otherwise. -/
theorem posixOS_read_file (root : Bool) (fs : MemFS) (path : String) (k : Key) (p : Nat)
    (c : Bytes) (hr : fs.resolveAs root path = .ok k)
    (hg : fs.get k = some (Node.file p c)) :
    (posixOS root).Stat path fs = .ok ⟨c.length, p⟩ ∧
    ((root = true ∨ p &&& 0o400 ≠ 0) → ReadFile (posixOS root) path 0 fs = .ok c) ∧
    ((root = false ∧ p &&& 0o400 = 0) →
      ReadFile (posixOS root) path 0 fs =
        .error (Error.sys (pathError "open" path Errno.EACCES))) := by
  have hm : mayOpen root p O_RDONLY = (root || p &&& 0o400 != 0) := by
    simp [mayOpen, O_RDONLY, O_WRONLY]
  refine ⟨?_, ?_, ?_⟩
  · simp [posixOS, memStat, hr, hg]
  · intro h
    have : mayOpen root p O_RDONLY = true := by
      rw [hm]; rcases h with h | h <;> simp [h]
    simp [ReadFile, posixOS, memReadFile, hr, hg, Except.mapError, this]
  · rintro ⟨h1, h2⟩
    have : mayOpen root p O_RDONLY = false := by
      rw [hm]; simp [h1, h2]
    simp [ReadFile, posixOS, memReadFile, hr, hg, Except.mapError, this]

/-- C6, amended: on every platform `WriteFile` returns a nil error exactly when
create, write and chmod succeed in this order.  On the modelled platform, for a
path that resolves (its parent directory exists) to a key holding no node or a
regular file of any content and mode, after a successful `WriteFile` the file
holds exactly the data and its permission bits are those of the mode; reading
it back without ceiling yields the data when the process is privileged or the
mode has the owner read bit, and fails with a permission error otherwise; and
after a second successful `WriteFile` the file holds the second data with the
permission bits of the second mode. -/
theorem WriteFile_roundtrip (os : OS σ η) (s : σ) (root : Bool) (fs : MemFS)
    (path : String) (B : Bytes) (m : FileMode) :
    (∀ s1, WriteFile os path B m s = (none, s1) ↔
      ∃ fd t1 t2 t3, os.Create path s = (.ok fd, t1) ∧ os.Write fd B t1 = (none, t2) ∧
        os.Chmod path m t2 = (none, t3) ∧ s1 = os.Close fd t3) ∧
    (∀ k fs1, fs.resolveAs root path = .ok k →
      (fs.get k = none ∨ ∃ p c, fs.get k = some (Node.file p c)) →
      WriteFile (posixOS root) path B m fs = (none, fs1) →
      (∃ md, fs1.get k = some (Node.file md B) ∧ FileMode.Perm md = FileMode.Perm m ∧
        (posixOS root).Stat path fs1 = .ok ⟨B.length, md⟩) ∧
      ((root = true ∨ m &&& 0o400 ≠ 0) → ReadFile (posixOS root) path 0 fs1 = .ok B) ∧
      ((root = false ∧ m &&& 0o400 = 0) →
        ReadFile (posixOS root) path 0 fs1 =
          .error (Error.sys (pathError "open" path Errno.EACCES))) ∧
      (∀ B2 m2 fs2, WriteFile (posixOS root) path B2 m2 fs1 = (none, fs2) →
        (∃ md2, fs2.get k = some (Node.file md2 B2) ∧
          FileMode.Perm md2 = FileMode.Perm m2 ∧
          (posixOS root).Stat path fs2 = .ok ⟨B2.length, md2⟩) ∧
        ((root = true ∨ m2 &&& 0o400 ≠ 0) →
          ReadFile (posixOS root) path 0 fs2 = .ok B2))) := by
  constructor
  · intro s1
    unfold WriteFile
    rcases hc : os.Create path s with ⟨r, t1⟩
    cases r with
    | error e => simp
    | ok fd =>
      rcases hwr : os.Write fd B t1 with ⟨w, t2⟩
      cases w with
      | some e => simp [hwr]
      | none =>
        rcases hch : os.Chmod path m t2 with ⟨c, t3⟩
        cases c with
        | some e => simp [hwr, hch]
        | none =>
          simp only [hwr, hch]
          constructor
          · intro h
            exact ⟨fd, t1, t2, t3, rfl, hwr, hch, (Prod.mk.inj h).2.symm⟩
          · rintro ⟨fd2, u1, u2, u3, h1, h2, h3, h4⟩
            obtain ⟨e1, e2⟩ := Prod.mk.inj h1
            cases e1
            subst e2
            rw [hwr] at h2
            obtain ⟨_, e3⟩ := Prod.mk.inj h2
            subst e3
            rw [hch] at h3
            obtain ⟨_, e4⟩ := Prod.mk.inj h3
            subst e4
            rw [h4]
  · intro k fs1 hr h hw
    obtain ⟨hr1, hg1, _⟩ := posixOS_WriteFile root fs fs1 path B m k hr h hw
    obtain ⟨hst, hok, hno⟩ := posixOS_read_file root fs1 path k _ _ hr1 hg1
    obtain ⟨hp, h4⟩ := chmodBits_perm m
    refine ⟨⟨_, hg1, hp, hst⟩, ?_, ?_, ?_⟩
    · intro hh
      apply hok
      rw [h4]; exact hh
    · intro hh
      apply hno
      rw [h4]; exact hh
    · intro B2 m2 fs2 hw2
      obtain ⟨hr2, hg2, _⟩ :=
        posixOS_WriteFile root fs1 fs2 path B2 m2 k hr1 (Or.inr ⟨_, _, hg1⟩) hw2
      obtain ⟨hst2, hok2, _⟩ := posixOS_read_file root fs2 path k _ _ hr2 hg2
      obtain ⟨hp2, h42⟩ := chmodBits_perm m2
      refine ⟨⟨_, hg2, hp2, hst2⟩, ?_⟩
      intro hh
      apply hok2
      rw [h42]; exact hh

/-- Witness of C6: a process that is not privileged writes a new file of mode
0644 in the empty directory `/e` and reads it back. -/
theorem WriteFile_roundtrip_witness :
    ReadFile (posixOS false) "/e/f" 0
      (WriteFile (posixOS false) "/e/f" [1, 2, 3] 0o644 fsDemo).2 = .ok [1, 2, 3] :=
  ((WriteFile_roundtrip (posixOS false) fsDemo false fsDemo "/e/f" [1, 2, 3] 0o644).2
    [['e'], ['f']] (WriteFile (posixOS false) "/e/f" [1, 2, 3] 0o644 fsDemo).2
    (by decide) (Or.inl (by decide)) (by decide)).2.1 (Or.inr (by decide))

/-- Counterexample of C6 as stated: a process that is not privileged writes a
new file with the mode 0200; `WriteFile` succeeds, the file holds the data with
the mode 0200, and reading it back without ceiling fails with a permission
error instead of yielding the data. -/
theorem WriteFile_readback_counterexample :
    fsDemo.resolveAs false "/e/f" = .ok [['e'], ['f']] ∧
    fsDemo.get [['e'], ['f']] = none ∧
    (WriteFile (posixOS false) "/e/f" [1, 2, 3] 0o200 fsDemo).1 = none ∧
    (WriteFile (posixOS false) "/e/f" [1, 2, 3] 0o200 fsDemo).2.get [['e'], ['f']] =
      some (Node.file 0o200 [1, 2, 3]) ∧
    ReadFile (posixOS false) "/e/f" 0
      (WriteFile (posixOS false) "/e/f" [1, 2, 3] 0o200 fsDemo).2 =
      .error (Error.sys ⟨"open /e/f: permission denied", false⟩) ∧
    ReadFile (posixOS false) "/e/f" 0
      (WriteFile (posixOS false) "/e/f" [1, 2, 3] 0o200 fsDemo).2 ≠ .ok [1, 2, 3] := by
  decide

/-- C7, the code at the failing input: under the umask 022, `AppendFile` with the
mode 0666 on a path that does not exist succeeds and creates the file with the
mode 0644, not with the mode of the call, where `WriteFile` with the same mode
leaves the mode 0666; a second `AppendFile` adds its data at the end and leaves
the mode as it is. -/
theorem AppendFile_created_mode :
    fsDemo.umask = 0o022 ∧
    fsDemo.get [['e'], ['f']] = none ∧
    (AppendFile (posixOS false) "/e/f" [1, 2] 0o666 fsDemo).1 = none ∧
    (posixOS false).Stat "/e/f" (AppendFile (posixOS false) "/e/f" [1, 2] 0o666 fsDemo).2 =
      .ok ⟨2, 0o644⟩ ∧
    (posixOS false).Stat "/e/f" (WriteFile (posixOS false) "/e/f" [1, 2] 0o666 fsDemo).2 =
      .ok ⟨2, 0o666⟩ ∧
    (AppendFile (posixOS false) "/e/f" [3] 0o600
      (AppendFile (posixOS false) "/e/f" [1, 2] 0o666 fsDemo).2).1 = none ∧
    (AppendFile (posixOS false) "/e/f" [3] 0o600
      (AppendFile (posixOS false) "/e/f" [1, 2] 0o666 fsDemo).2).2.get [['e'], ['f']] =
      some (Node.file 0o644 [1, 2, 3]) := by
  decide

end Fsutil
